import Mathlib

/-!
Shallow embedding of the Crochet Counter state engine (src/app.js, src/db.js).

Numbers: wall-clock timestamps and counter values are modelled as `ℤ`;
`totalElapsedMs` is modelled as `ℚ` because the ETA estimator divides it.
JavaScript `undefined` fields become `Option`; the JS falsy test on
`timer.lastTick` (`timer.lastTick || now`) treats both `undefined` and `0`
as absent.
-/

namespace CrochetCounter

/-- Counter record (app.js `mainCounter` / elements of `subCounters`). -/
structure Counter where
  id : String
  name : String
  value : ℤ
  target : Option ℤ
deriving DecidableEq

/-- Timer record (app.js `project.timer`). -/
structure Timer where
  totalElapsedMs : ℚ
  isPaused : Bool
  lastTick : Option ℤ
deriving DecidableEq

/-- One element of `project.incrementHistory`. -/
structure HistoryEntry where
  counterId : String
  timestamp : ℤ
deriving DecidableEq

/-- Project record (app.js `appState.activeProject`). -/
structure Project where
  id : Option String
  name : String
  lastModified : ℤ
  timer : Timer
  mainCounter : Counter
  subCounters : List Counter
  incrementHistory : List HistoryEntry
  notes : String
  patternUrl : String
deriving DecidableEq

/-- app.js `createDefaultProject()`: blank ephemeral project stamped with
the current wall-clock time. -/
def createDefaultProject (now : ℤ) : Project where
  id := none
  name := "New Project"
  lastModified := now
  timer := { totalElapsedMs := 0, isPaused := false, lastTick := some now }
  mainCounter := { id := "main", name := "Row", value := 0, target := none }
  subCounters := []
  incrementHistory := []
  notes := ""
  patternUrl := ""

/- ## Timer accrual (app.js `updateTimer`) -/

/-- The sample the code reads as the previous tick: JS `timer.lastTick || now`,
falling back to `now` when `lastTick` is `undefined` or the falsy value `0`. -/
def lastTickSample (t : Timer) (now : ℤ) : ℤ :=
  match t.lastTick with
  | none => now
  | some v => if v = 0 then now else v

/-- app.js `updateTimer`, as a pure function of (timer, now): returns the
timer unchanged when paused, otherwise adds `now - (lastTick || now)` to
`totalElapsedMs` and stores `lastTick = now`. -/
def updateTimer (t : Timer) (now : ℤ) : Timer :=
  if t.isPaused then t
  else
    { t with
      totalElapsedMs := t.totalElapsedMs + ((now - lastTickSample t now : ℤ) : ℚ)
      lastTick := some now }

/- ## C1: timer accrual under decreasing wall clock -/

/-- C1 (counterexample): the claim says a tick whose `now` sample is earlier
than the stored `lastTick` treats the elapsed amount as zero, so
`totalElapsedMs` never decreases and is never negative. On the concrete timer
`{totalElapsedMs := 0, isPaused := false, lastTick := some 1000}`, ticking at
`now = 1000` and then at `now = 500` leaves `totalElapsedMs = -500`: the
second tick decreased the total below its previous value `0` and below zero,
so the claim is false on the code. -/
theorem claim_C1_counterexample :
    (updateTimer (updateTimer ⟨0, false, some 1000⟩ 1000) 500).totalElapsedMs = -500 ∧
    (updateTimer ⟨0, false, some 1000⟩ 1000).totalElapsedMs = 0 ∧
    ¬ ((updateTimer ⟨0, false, some 1000⟩ 1000).totalElapsedMs ≤
        (updateTimer (updateTimer ⟨0, false, some 1000⟩ 1000) 500).totalElapsedMs) ∧
    (updateTimer (updateTimer ⟨0, false, some 1000⟩ 1000) 500).totalElapsedMs < 0 := by
  refine ⟨?_, ?_, ?_, ?_⟩ <;> norm_num [updateTimer, lastTickSample]

/-- C1 (amended): `tick` is a no-op when `isPaused` is true; a missing or `0`
(JS-falsy) `lastTick` contributes zero elapsed for that sample; but for a
genuine stored `lastTick = v ≠ 0` the code adds the raw difference `now - v`
to `totalElapsedMs` with no clamping, so when `now < v` the total strictly
decreases and can become negative. -/
theorem claim_C1_theorem (t : Timer) (now : ℤ) :
    (t.isPaused = true → updateTimer t now = t) ∧
    (t.isPaused = false → (t.lastTick = none ∨ t.lastTick = some 0) →
      (updateTimer t now).totalElapsedMs = t.totalElapsedMs) ∧
    (t.isPaused = false → ∀ v : ℤ, t.lastTick = some v → v ≠ 0 →
      (updateTimer t now).totalElapsedMs = t.totalElapsedMs + ((now - v : ℤ) : ℚ)) ∧
    (t.isPaused = false → ∀ v : ℤ, t.lastTick = some v → v ≠ 0 → now < v →
      (updateTimer t now).totalElapsedMs < t.totalElapsedMs) := by
  refine ⟨?_, ?_, ?_, ?_⟩
  · intro hp
    simp [updateTimer, hp]
  · intro hp hlt
    rcases hlt with h | h <;>
      simp [updateTimer, hp, lastTickSample, h]
  · intro hp v hv hv0
    simp [updateTimer, hp, lastTickSample, hv, hv0]
  · intro hp v hv hv0 hlt
    rw [show (updateTimer t now).totalElapsedMs
        = t.totalElapsedMs + ((now - v : ℤ) : ℚ) by
      simp [updateTimer, hp, lastTickSample, hv, hv0]]
    have hneg : ((now - v : ℤ) : ℚ) < 0 := by
      exact_mod_cast sub_neg.mpr hlt
    linarith

/-- C1 witness: the amended theorem evaluated on the concrete running timer
`{totalElapsedMs := 7, isPaused := false, lastTick := some 1000}` at
`now = 400 < 1000`. -/
theorem claim_C1_witness :
    (updateTimer ⟨7, false, some 1000⟩ 400).totalElapsedMs
      = (7 : ℚ) + ((400 - 1000 : ℤ) : ℚ) ∧
    (updateTimer ⟨7, false, some 1000⟩ 400).totalElapsedMs < 7 := by
  constructor
  · exact (claim_C1_theorem ⟨7, false, some 1000⟩ 400).2.2.1 rfl 1000 rfl (by decide)
  · exact (claim_C1_theorem ⟨7, false, some 1000⟩ 400).2.2.2 rfl 1000 rfl (by decide) (by decide)

/- ## ETA estimator (app.js `calculateETA`) -/

/-- The history sort used by `calculateETA` (ascending by timestamp):
`.sort((a, b) => a.timestamp - b.timestamp)` in app.js. -/
def sortByTimestamp (l : List HistoryEntry) : List HistoryEntry :=
  l.insertionSort (fun a b => a.timestamp ≤ b.timestamp)

/-- The `computeAvgTimePerIncrement` closure in app.js `calculateETA`: `null`
for an empty series, and `totalTime / totalIncrements` only when
`totalTime > 0 && totalIncrements > 0`, otherwise `null`. -/
def computeAvgTimePerIncrement (totalTime : ℚ) (incArr : List HistoryEntry) : Option ℚ :=
  if incArr = [] then none
  else if 0 < totalTime ∧ 0 < incArr.length then some (totalTime / (incArr.length : ℚ))
  else none

/-- The formatting tail of app.js `calculateETA`, as a function of the
already-rounded minute count: `< 1` minute, `~N min` below an hour, else
`~Hh Mm` with `H = floor(minutes / 60)` and `M = minutes % 60`. -/
def formatETAMinutes (minutes : ℤ) : String :=
  if minutes < 1 then "ETA: < 1 min"
  else if minutes < 60 then "ETA: ~" ++ toString minutes ++ " min"
  else "ETA: ~" ++ toString (minutes / 60) ++ "h " ++ toString (minutes % 60) ++ "m"

/-- Rounding plus formatting of an `etaMs` value: app.js computes
`minutes = Math.ceil(etaMs / 60000)` and then formats it. -/
def formatETA (etaMs : ℚ) : String :=
  formatETAMinutes ⌈etaMs / 60000⌉

/-- app.js `calculateETA(counter)`, with the enclosing `appState.activeProject`
made an explicit argument. `!counter.target` is the JS falsy test (absent or
`0`); the specific series is the history filtered to this counter id, the
global series is the whole history, both sorted ascending by timestamp; the
specific average is preferred, with fallback to the global one. -/
def calculateETA (p : Project) (c : Counter) : Option String :=
  match c.target with
  | none => none
  | some tgt =>
    if tgt = 0 then none
    else if tgt ≤ c.value then none
    else if p.incrementHistory = [] then none
    else
      let incrementsForCounter :=
        sortByTimestamp (p.incrementHistory.filter (fun h => h.counterId == c.id))
      let globalIncrements := sortByTimestamp p.incrementHistory
      let avgTimePerIncrement :=
        match computeAvgTimePerIncrement p.timer.totalElapsedMs incrementsForCounter with
        | some avg => some avg
        | none => computeAvgTimePerIncrement p.timer.totalElapsedMs globalIncrements
      match avgTimePerIncrement with
      | none => none
      | some avg => some (formatETA (((tgt - c.value : ℤ) : ℚ) * avg))

/-- Length of the series `calculateETA` actually divides by: the
counter-specific series when non-empty, otherwise the whole history. -/
def etaSeriesLength (p : Project) (c : Counter) : ℕ :=
  if p.incrementHistory.filter (fun h => h.counterId == c.id) = [] then
    p.incrementHistory.length
  else (p.incrementHistory.filter (fun h => h.counterId == c.id)).length

theorem sortByTimestamp_length (l : List HistoryEntry) :
    (sortByTimestamp l).length = l.length :=
  (List.perm_insertionSort _ l).length_eq

theorem sortByTimestamp_eq_nil_iff (l : List HistoryEntry) :
    sortByTimestamp l = [] ↔ l = [] := by
  constructor
  · intro h
    have hp := List.perm_insertionSort (fun a b : HistoryEntry => a.timestamp ≤ b.timestamp) l
    rw [sortByTimestamp] at h
    rw [h] at hp
    exact hp.symm.eq_nil
  · intro h
    simp [sortByTimestamp, h]

/-- Helper: under a real target above the current value, a non-empty history
and a positive elapsed total, `calculateETA` returns the formatted estimate
built from `totalElapsedMs` divided by the preferred series length. -/
theorem calculateETA_pos (p : Project) (c : Counter) (t : ℤ)
    (ht : c.target = some t) (ht0 : t ≠ 0) (hlt : c.value < t)
    (hh : p.incrementHistory ≠ []) (hpos : 0 < p.timer.totalElapsedMs) :
    0 < etaSeriesLength p c ∧
    calculateETA p c = some (formatETA (((t - c.value : ℤ) : ℚ) *
      (p.timer.totalElapsedMs / (etaSeriesLength p c : ℚ)))) := by
  have hlen : 0 < p.incrementHistory.length := List.length_pos.mpr hh
  by_cases hspec : p.incrementHistory.filter (fun h => h.counterId == c.id) = []
  · have hn : etaSeriesLength p c = p.incrementHistory.length := by
      simp [etaSeriesLength, hspec]
    refine ⟨by rw [hn]; exact hlen, ?_⟩
    rw [hn]
    simp only [calculateETA, ht]
    rw [if_neg ht0, if_neg (not_le.mpr hlt), if_neg hh]
    rw [hspec]
    simp [computeAvgTimePerIncrement, sortByTimestamp_eq_nil_iff, hh,
      sortByTimestamp_length, hpos, hlen]
  · have hslen : 0 < (p.incrementHistory.filter (fun h => h.counterId == c.id)).length :=
      List.length_pos.mpr hspec
    have hn : etaSeriesLength p c
        = (p.incrementHistory.filter (fun h => h.counterId == c.id)).length := by
      simp [etaSeriesLength, hspec]
    refine ⟨by rw [hn]; exact hslen, ?_⟩
    rw [hn]
    simp only [calculateETA, ht]
    rw [if_neg ht0, if_neg (not_le.mpr hlt), if_neg hh]
    simp [computeAvgTimePerIncrement, sortByTimestamp_eq_nil_iff, hspec,
      sortByTimestamp_length, hpos, hslen]

/-- Helper: exact characterization of when `calculateETA` returns `null`. -/
theorem calculateETA_none_iff (p : Project) (c : Counter) :
    calculateETA p c = none ↔
      c.target = none ∨ c.target = some 0 ∨
      (∃ t : ℤ, c.target = some t ∧ t ≤ c.value) ∨
      p.incrementHistory = [] ∨ p.timer.totalElapsedMs ≤ 0 := by
  constructor
  · intro hnone
    by_contra hcon
    push_neg at hcon
    obtain ⟨h1, h2, h3, h4, h5⟩ := hcon
    obtain ⟨t, ht⟩ := Option.ne_none_iff_exists'.mp h1
    have ht0 : t ≠ 0 := by
      rintro rfl
      exact h2 ht
    have hlt : c.value < t := h3 t ht
    have hpos : 0 < p.timer.totalElapsedMs := h5
    have := (calculateETA_pos p c t ht ht0 hlt h4 hpos).2
    rw [hnone] at this
    exact Option.noConfusion this
  · intro hdisj
    rcases hdisj with h | h | ⟨t, ht, hle⟩ | h | h
    · simp [calculateETA, h]
    · simp [calculateETA, h]
    · by_cases ht0 : t = 0
      · simp [calculateETA, ht, ht0]
      · simp [calculateETA, ht, ht0, hle]
    · rcases hc : c.target with _ | tgt
      · simp [calculateETA, hc]
      · simp [calculateETA, hc, h]
    · rcases hc : c.target with _ | tgt
      · simp [calculateETA, hc]
      · simp [calculateETA, hc, computeAvgTimePerIncrement, not_lt.mpr h]

/- ## C3: when the estimate is absent -/

/-- C3 (counterexample): the claim says the estimate is absent exactly when
there is no target, the target is met, or both series are empty, and that a
non-empty series always yields a formatted string. On the concrete project
whose timer has `totalElapsedMs = 0`, a main counter with `value = 5` and
`target = 10`, and one history entry for `"main"`, the series is non-empty
and the target exceeds the value, yet `calculateETA` returns `null` (the
code also requires `totalTime > 0`). -/
theorem claim_C3_counterexample :
    calculateETA
      ⟨none, "P", 0, ⟨0, false, some 0⟩, ⟨"main", "Row", 5, some 10⟩, [],
        [⟨"main", 5⟩], "", ""⟩
      ⟨"main", "Row", 5, some 10⟩ = none ∧
    ([⟨"main", 5⟩] : List HistoryEntry) ≠ [] ∧ ((5 : ℤ) < 10) := by
  refine ⟨?_, by decide, by decide⟩
  exact (calculateETA_none_iff _ _).mpr (Or.inr (Or.inr (Or.inr (Or.inr le_rfl))))

/-- C3 (amended): `calculateETA` returns absent exactly when the counter has
no target (absent or the falsy value `0`), or the target is at most the
current value, or the increment history is empty, or `timer.totalElapsedMs`
is not positive; whenever the target exceeds the value, the history is
non-empty and `totalElapsedMs > 0`, it returns the formatted string computed
from `totalElapsedMs` divided by the length of the preferred series (the
counter-specific one when non-empty, else the whole history), and that
length is positive — it never divides by zero. -/
theorem claim_C3_theorem (p : Project) (c : Counter) :
    (calculateETA p c = none ↔
      c.target = none ∨ c.target = some 0 ∨
      (∃ t : ℤ, c.target = some t ∧ t ≤ c.value) ∨
      p.incrementHistory = [] ∨ p.timer.totalElapsedMs ≤ 0) ∧
    (∀ t : ℤ, c.target = some t → t ≠ 0 → c.value < t → p.incrementHistory ≠ [] →
      0 < p.timer.totalElapsedMs →
      0 < etaSeriesLength p c ∧
      calculateETA p c = some (formatETA (((t - c.value : ℤ) : ℚ) *
        (p.timer.totalElapsedMs / (etaSeriesLength p c : ℚ))))) :=
  ⟨calculateETA_none_iff p c,
   fun t ht ht0 hlt hh hpos => calculateETA_pos p c t ht ht0 hlt hh hpos⟩

/-- C3 witness: the amended theorem evaluated on a concrete project with one
history entry for `"main"`, `totalElapsedMs = 1000`, value `5`, target `10`. -/
theorem claim_C3_witness :
    0 < etaSeriesLength
        ⟨none, "P", 0, ⟨1000, false, some 0⟩, ⟨"main", "Row", 5, some 10⟩, [],
          [⟨"main", 5⟩], "", ""⟩
        ⟨"main", "Row", 5, some 10⟩ ∧
    calculateETA
        ⟨none, "P", 0, ⟨1000, false, some 0⟩, ⟨"main", "Row", 5, some 10⟩, [],
          [⟨"main", 5⟩], "", ""⟩
        ⟨"main", "Row", 5, some 10⟩
      = some (formatETA (((10 - 5 : ℤ) : ℚ) *
          ((1000 : ℚ) / (etaSeriesLength
            ⟨none, "P", 0, ⟨1000, false, some 0⟩, ⟨"main", "Row", 5, some 10⟩, [],
              [⟨"main", 5⟩], "", ""⟩
            ⟨"main", "Row", 5, some 10⟩ : ℚ)))) :=
  (claim_C3_theorem _ _).2 10 rfl (by decide) (by decide) (by decide) (by norm_num)

/- ## C2: ETA rounding boundary -/

/-- Helper: any positive `etaMs` of at most one minute rounds up to exactly
one minute and formats as `"ETA: ~1 min"`. -/
theorem formatETA_of_pos_le (q : ℚ) (h1 : 0 < q) (h2 : q ≤ 60000) :
    formatETA q = "ETA: ~1 min" := by
  have hc : ⌈q / 60000⌉ = 1 := by
    rw [Int.ceil_eq_iff]
    constructor
    · push_cast
      have : 0 < q / 60000 := div_pos h1 (by norm_num)
      linarith
    · push_cast
      rw [div_le_one (by norm_num : (0:ℚ) < 60000)]
      exact h2
  rw [formatETA, hc]
  decide

/-- The C2 scenario project: fresh project whose main counter was incremented
5 times at t = 0, 10, 20, 30, 40 seconds, `target = 10`, `value = 5`,
`totalElapsedMs = 40000`. -/
def scenarioProject : Project :=
  ⟨none, "New Project", 40000, ⟨40000, false, some 40000⟩,
    ⟨"main", "Row", 5, some 10⟩, [],
    [⟨"main", 0⟩, ⟨"main", 10000⟩, ⟨"main", 20000⟩, ⟨"main", 30000⟩, ⟨"main", 40000⟩],
    "", ""⟩

/-- C2 (counterexample): the claim says an `etaMs` of `59999` formats as the
below-one-minute string. The code computes `Math.ceil(59999 / 60000) = 1`,
so `59999` formats as `"ETA: ~1 min"`, not `"ETA: < 1 min"`. -/
theorem claim_C2_counterexample :
    formatETA 59999 = "ETA: ~1 min" ∧ formatETA 59999 ≠ "ETA: < 1 min" := by
  have h := formatETA_of_pos_le 59999 (by norm_num) (by norm_num)
  refine ⟨h, ?_⟩
  rw [h]
  decide

/-- C2 (amended): because minutes are rounded up, every `etaMs` in
`(0, 60000]` — including the claimed boundary values `59999` and `60000` —
formats as `"ETA: ~1 min"` (the below-one-minute string would need a
non-positive `etaMs`); in the 5-increments scenario (avg 8000 ms per
increment, remaining 5, `etaMs = 40000`) the result is `"ETA: ~1 min"`. -/
theorem claim_C2_theorem :
    formatETA 59999 = "ETA: ~1 min" ∧ formatETA 60000 = "ETA: ~1 min" ∧
    calculateETA scenarioProject scenarioProject.mainCounter
      = some "ETA: ~1 min" := by
  refine ⟨formatETA_of_pos_le 59999 (by norm_num) (by norm_num),
    formatETA_of_pos_le 60000 (by norm_num) (by norm_num), ?_⟩
  have hn : etaSeriesLength scenarioProject scenarioProject.mainCounter = 5 := by decide
  have h := (calculateETA_pos scenarioProject scenarioProject.mainCounter 10
    rfl (by decide) (by decide) (by decide) (by norm_num [scenarioProject])).2
  rw [hn] at h
  rw [h]
  have harith : ((10 - (scenarioProject.mainCounter).value : ℤ) : ℚ) *
      (scenarioProject.timer.totalElapsedMs / ((5 : ℕ) : ℚ)) = 40000 := by
    show ((10 - 5 : ℤ) : ℚ) * ((40000 : ℚ) / ((5 : ℕ) : ℚ)) = 40000
    norm_num
  rw [harith, formatETA_of_pos_le 40000 (by norm_num) (by norm_num)]

/- ## Counter actions (app.js `incrementCounter` / `decrementCounter` /
`resetCounter` / `deleteSubCounter`) -/

/-- app.js `findCounter(counterId)`: the reserved id `"main"` resolves to
the main counter, anything else by first match in `subCounters`. -/
def findCounter (p : Project) (cid : String) : Option Counter :=
  if cid = "main" then some p.mainCounter
  else p.subCounters.find? (fun c => c.id == cid)

/-- In-place mutation of the counter object `findCounter` returned: the first
list element with the given id is replaced by `f` of itself. -/
def updateFirstCounter (cid : String) (f : Counter → Counter) :
    List Counter → List Counter
  | [] => []
  | c :: cs => if c.id = cid then f c :: cs else c :: updateFirstCounter cid f cs

/-- Applies `f` to the counter that `findCounter` resolves for `cid` (the JS
code mutates that object through the returned reference). -/
def applyToCounter (p : Project) (cid : String) (f : Counter → Counter) : Project :=
  if cid = "main" then { p with mainCounter := f p.mainCounter }
  else { p with subCounters := updateFirstCounter cid f p.subCounters }

/-- Removes the first entry with the given counter id from a history list. -/
def removeFirstMatch (cid : String) : List HistoryEntry → List HistoryEntry
  | [] => []
  | e :: rest => if e.counterId = cid then rest else e :: removeFirstMatch cid rest

/-- The splice loop in app.js `decrementCounter`: scan the history from its
last index down and remove the first (i.e. most recent) entry whose
`counterId` matches, leaving everything else in place. -/
def removeMostRecentEntry (l : List HistoryEntry) (cid : String) : List HistoryEntry :=
  (removeFirstMatch cid l.reverse).reverse

/-- The mutation body of app.js `incrementCounter` (inside `updateAndSave`):
if the counter resolves, bump its value and append a history entry. -/
def incrementMutation (cid : String) (now : ℤ) (p : Project) : Project :=
  match findCounter p cid with
  | none => p
  | some _ =>
    let p1 := applyToCounter p cid (fun c => { c with value := c.value + 1 })
    { p1 with incrementHistory := p1.incrementHistory ++ [⟨cid, now⟩] }

/-- The mutation body of app.js `decrementCounter`: only when the counter
resolves and its value is `> 0`, decrement it and remove the most recent
history entry for this counter. -/
def decrementMutation (cid : String) (p : Project) : Project :=
  match findCounter p cid with
  | none => p
  | some c =>
    if 0 < c.value then
      let p1 := applyToCounter p cid (fun c => { c with value := c.value - 1 })
      { p1 with incrementHistory := removeMostRecentEntry p1.incrementHistory cid }
    else p

/-- The mutation body of app.js `resetCounter`: if the counter resolves, zero
its value and drop every history entry for this counter. -/
def resetMutation (cid : String) (p : Project) : Project :=
  match findCounter p cid with
  | none => p
  | some _ =>
    let p1 := applyToCounter p cid (fun c => { c with value := 0 })
    { p1 with
      incrementHistory := p1.incrementHistory.filter (fun h => ¬ h.counterId = cid) }

/-- The mutation body of app.js `deleteSubCounter`: drop the sub-counter and
every history entry for it. -/
def deleteSubCounterMutation (cid : String) (p : Project) : Project :=
  { p with
    subCounters := p.subCounters.filter (fun c => ¬ c.id = cid)
    incrementHistory := p.incrementHistory.filter (fun h => ¬ h.counterId = cid) }

/-- The `updateAndSave` stamping seen by every counter action: the modification
runs and then `lastModified = Date.now()` is written (the dirty/autosave part
is modelled separately on the engine state). -/
def stampLastModified (p : Project) (now : ℤ) : Project :=
  { p with lastModified := now }

/-- app.js `incrementCounter(id)`: its `updateAndSave` mutation plus the stamp. -/
def incrementCounterProject (p : Project) (cid : String) (now : ℤ) : Project :=
  stampLastModified (incrementMutation cid now p) now

/-- app.js `decrementCounter(id)`: its `updateAndSave` mutation plus the stamp. -/
def decrementCounterProject (p : Project) (cid : String) (now : ℤ) : Project :=
  stampLastModified (decrementMutation cid p) now

/-- app.js `resetCounter(id)`: its `updateAndSave` mutation plus the stamp. -/
def resetCounterProject (p : Project) (cid : String) (now : ℤ) : Project :=
  stampLastModified (resetMutation cid p) now

/-- One user intent in a sequence of counter button presses. -/
inductive CounterOp where
  | inc (cid : String) (now : ℤ)
  | dec (cid : String) (now : ℤ)
deriving DecidableEq

/-- Applies one increment/decrement intent to the active project. -/
def applyCounterOp (p : Project) : CounterOp → Project
  | .inc cid now => incrementCounterProject p cid now
  | .dec cid now => decrementCounterProject p cid now

/-- Applies a whole sequence of increment/decrement intents in order. -/
def applyCounterOps (p : Project) (ops : List CounterOp) : Project :=
  ops.foldl applyCounterOp p

/-- All counter values of the project (main and subs) are non-negative. -/
def CounterValuesNonneg (p : Project) : Prop :=
  0 ≤ p.mainCounter.value ∧ ∀ c ∈ p.subCounters, 0 ≤ c.value

instance (p : Project) : Decidable (CounterValuesNonneg p) := by
  unfold CounterValuesNonneg
  infer_instance

/- ## C4: counter values never go negative -/

theorem findCounter_stamp (p : Project) (now : ℤ) (cid : String) :
    findCounter (stampLastModified p now) cid = findCounter p cid := by
  simp [findCounter, stampLastModified]

theorem nonneg_updateFirst_inc (cid : String) :
    ∀ l : List Counter, (∀ c ∈ l, 0 ≤ c.value) →
      ∀ c ∈ updateFirstCounter cid (fun c => { c with value := c.value + 1 }) l,
        0 ≤ c.value := by
  intro l
  induction l with
  | nil => intro _ c hc; simp [updateFirstCounter] at hc
  | cons x xs ih =>
    intro hl c hc
    rw [updateFirstCounter] at hc
    by_cases hx : x.id = cid
    · rw [if_pos hx] at hc
      rcases List.mem_cons.mp hc with h | h
      · subst h
        have := hl x (List.mem_cons_self x xs)
        simpa using le_trans this (by linarith)
      · exact hl c (List.mem_cons_of_mem x h)
    · rw [if_neg hx] at hc
      rcases List.mem_cons.mp hc with h | h
      · subst h
        exact hl c (List.mem_cons_self c xs)
      · exact ih (fun c hc => hl c (List.mem_cons_of_mem x hc)) c h

theorem nonneg_updateFirst_dec (cid : String) :
    ∀ l : List Counter, ∀ c0 : Counter,
      l.find? (fun c => c.id == cid) = some c0 → 0 < c0.value →
      (∀ c ∈ l, 0 ≤ c.value) →
      ∀ c ∈ updateFirstCounter cid (fun c => { c with value := c.value - 1 }) l,
        0 ≤ c.value := by
  intro l
  induction l with
  | nil => intro c0 hfind; simp at hfind
  | cons x xs ih =>
    intro c0 hfind hpos hl c hc
    rw [updateFirstCounter] at hc
    by_cases hx : x.id = cid
    · rw [List.find?_cons_of_pos _ (by simpa using hx)] at hfind
      have hx0 : x = c0 := Option.some.injEq _ _ ▸ hfind
      rw [if_pos hx] at hc
      rcases List.mem_cons.mp hc with h | h
      · subst h
        have : 0 < x.value := hx0 ▸ hpos
        simpa using by linarith
      · exact hl c (List.mem_cons_of_mem x h)
    · rw [List.find?_cons_of_neg _ (by simpa using hx)] at hfind
      rw [if_neg hx] at hc
      rcases List.mem_cons.mp hc with h | h
      · subst h
        exact hl c (List.mem_cons_self c xs)
      · exact ih c0 hfind hpos (fun c hc => hl c (List.mem_cons_of_mem x hc)) c h

theorem applyCounterOp_nonneg (p : Project) (op : CounterOp)
    (h : CounterValuesNonneg p) : CounterValuesNonneg (applyCounterOp p op) := by
  obtain ⟨hmain, hsubs⟩ := h
  cases op with
  | inc cid now =>
    show CounterValuesNonneg (incrementCounterProject p cid now)
    rw [incrementCounterProject]
    rcases hf : findCounter p cid with _ | c
    · simp only [incrementMutation, hf]
      exact ⟨hmain, hsubs⟩
    · simp only [incrementMutation, hf]
      by_cases hm : cid = "main"
      · refine ⟨?_, ?_⟩
        · simp [applyToCounter, stampLastModified, CounterValuesNonneg, hm]
          linarith
        · intro c hc
          simp [applyToCounter, stampLastModified, hm] at hc
          exact hsubs c hc
      · refine ⟨?_, ?_⟩
        · simpa [applyToCounter, stampLastModified, hm] using hmain
        · intro c hc
          simp only [applyToCounter, stampLastModified, if_neg hm] at hc
          exact nonneg_updateFirst_inc cid p.subCounters hsubs c hc
  | dec cid now =>
    show CounterValuesNonneg (decrementCounterProject p cid now)
    rw [decrementCounterProject]
    rcases hf : findCounter p cid with _ | c
    · simp only [decrementMutation, hf]
      exact ⟨hmain, hsubs⟩
    · simp only [decrementMutation, hf]
      by_cases hv : 0 < c.value
      · rw [if_pos hv]
        by_cases hm : cid = "main"
        · have hcm : p.mainCounter = c := by
            simpa [findCounter, hm] using hf
          refine ⟨?_, ?_⟩
          · simp only [applyToCounter, stampLastModified, if_pos hm]
            have : 0 < p.mainCounter.value := by rw [hcm]; exact hv
            simpa using by linarith
          · intro c hc
            simp [applyToCounter, stampLastModified, hm] at hc
            exact hsubs c hc
        · have hfs : p.subCounters.find? (fun c => c.id == cid) = some c := by
            simpa [findCounter, hm] using hf
          refine ⟨?_, ?_⟩
          · simpa [applyToCounter, stampLastModified, hm] using hmain
          · intro c' hc'
            simp only [applyToCounter, stampLastModified, if_neg hm] at hc'
            exact nonneg_updateFirst_dec cid p.subCounters c hfs hv hsubs c' hc'
      · rw [if_neg hv]
        exact ⟨hmain, hsubs⟩

/-- C4: for every project whose counters are all non-negative and every
sequence of increment/decrement intents, every counter value stays `≥ 0`;
moreover `decrementCounter` on a counter whose value is `0` leaves that
counter entirely unchanged (the decrement below `0` is a no-op). -/
theorem claim_C4_theorem (p : Project) (ops : List CounterOp)
    (h : CounterValuesNonneg p) :
    CounterValuesNonneg (applyCounterOps p ops) ∧
    (∀ (cid : String) (now : ℤ) (c : Counter), findCounter p cid = some c →
      c.value = 0 → findCounter (decrementCounterProject p cid now) cid = some c) := by
  constructor
  · induction ops generalizing p with
    | nil => exact h
    | cons op ops ih =>
      rw [applyCounterOps, List.foldl_cons]
      exact ih (applyCounterOp p op) (applyCounterOp_nonneg p op h)
  · intro cid now c hf hc0
    rw [decrementCounterProject]
    simp only [decrementMutation, hf]
    rw [if_neg (by rw [hc0]; decide), findCounter_stamp]
    exact hf

/-- C4 witness: the theorem evaluated on the default project (all values `0`)
and the press sequence `[dec, inc, dec, dec]` on the main counter, plus the
no-op decrement on the fresh main counter at value `0`. -/
theorem claim_C4_witness :
    CounterValuesNonneg (applyCounterOps (createDefaultProject 0)
      [.dec "main" 1, .inc "main" 2, .dec "main" 3, .dec "main" 4]) ∧
    findCounter (decrementCounterProject (createDefaultProject 0) "main" 1) "main"
      = some (createDefaultProject 0).mainCounter := by
  have h := claim_C4_theorem (createDefaultProject 0)
    [.dec "main" 1, .inc "main" 2, .dec "main" 3, .dec "main" 4] (by decide)
  exact ⟨h.1, h.2 "main" 1 (createDefaultProject 0).mainCounter rfl rfl⟩

/- ## C5: decrement removes exactly the most recent matching history entry -/

theorem applyToCounter_incrementHistory (p : Project) (cid : String)
    (f : Counter → Counter) :
    (applyToCounter p cid f).incrementHistory = p.incrementHistory := by
  rw [applyToCounter]
  split_ifs <;> rfl

theorem removeFirstMatch_cases (cid : String) :
    ∀ l : List HistoryEntry,
      ((∀ e ∈ l, ¬ e.counterId = cid) ∧ removeFirstMatch cid l = l) ∨
      (∃ l1 e l2, l = l1 ++ e :: l2 ∧ (∀ x ∈ l1, ¬ x.counterId = cid) ∧
        e.counterId = cid ∧ removeFirstMatch cid l = l1 ++ l2) := by
  intro l
  induction l with
  | nil => exact Or.inl ⟨by simp, rfl⟩
  | cons x xs ih =>
    by_cases hx : x.counterId = cid
    · exact Or.inr ⟨[], x, xs, by simp, by simp, hx, by simp [removeFirstMatch, hx]⟩
    · rcases ih with ⟨hall, heq⟩ | ⟨l1, e, l2, hsplit, hl1, he, heq⟩
      · refine Or.inl ⟨?_, by simp [removeFirstMatch, hx, heq]⟩
        intro e he
        rcases List.mem_cons.mp he with h | h
        · exact h ▸ hx
        · exact hall e h
      · refine Or.inr ⟨x :: l1, e, l2, by simp [hsplit], ?_, he,
          by simp [removeFirstMatch, hx, heq]⟩
        intro y hy
        rcases List.mem_cons.mp hy with h | h
        · exact h ▸ hx
        · exact hl1 y h

/-- The splice loop removes nothing when no entry matches, and otherwise
removes exactly the last matching entry. -/
theorem removeMostRecentEntry_cases (l : List HistoryEntry) (cid : String) :
    ((∀ e ∈ l, ¬ e.counterId = cid) ∧ removeMostRecentEntry l cid = l) ∨
    (∃ l1 e l2, l = l1 ++ e :: l2 ∧ e.counterId = cid ∧
      (∀ x ∈ l2, ¬ x.counterId = cid) ∧ removeMostRecentEntry l cid = l1 ++ l2) := by
  rcases removeFirstMatch_cases cid l.reverse with ⟨hall, heq⟩ |
    ⟨l1, e, l2, hsplit, hl1, he, heq⟩
  · refine Or.inl ⟨?_, ?_⟩
    · intro e he
      exact hall e (List.mem_reverse.mpr he)
    · rw [removeMostRecentEntry, heq, List.reverse_reverse]
  · refine Or.inr ⟨l2.reverse, e, l1.reverse, ?_, he, ?_, ?_⟩
    · have := congrArg List.reverse hsplit
      simpa using this
    · intro x hx
      exact hl1 x (List.mem_reverse.mp hx)
    · rw [removeMostRecentEntry, heq]
      simp

/-- C5: for every project state and counter id, `decrementCounter` removes at
most one history entry; when it removes one, that entry is the most recent
one whose `counterId` matches (no later entry matches); entries with other
counter ids are always preserved; and when the counter resolves with value
`0` the history is untouched. -/
theorem claim_C5_theorem (p : Project) (cid : String) (now : ℤ) :
    ((decrementCounterProject p cid now).incrementHistory.length
        = p.incrementHistory.length ∨
      (decrementCounterProject p cid now).incrementHistory.length + 1
        = p.incrementHistory.length) ∧
    ((decrementCounterProject p cid now).incrementHistory ≠ p.incrementHistory →
      ∃ l1 e l2, p.incrementHistory = l1 ++ e :: l2 ∧ e.counterId = cid ∧
        (∀ x ∈ l2, ¬ x.counterId = cid) ∧
        (decrementCounterProject p cid now).incrementHistory = l1 ++ l2) ∧
    ((decrementCounterProject p cid now).incrementHistory.filter
        (fun h => ¬ h.counterId = cid)
      = p.incrementHistory.filter (fun h => ¬ h.counterId = cid)) ∧
    (∀ c : Counter, findCounter p cid = some c → c.value = 0 →
      (decrementCounterProject p cid now).incrementHistory = p.incrementHistory) := by
  rcases hf : findCounter p cid with _ | c
  · have hq : (decrementCounterProject p cid now).incrementHistory
        = p.incrementHistory := by
      simp [decrementCounterProject, decrementMutation, hf, stampLastModified]
    exact ⟨Or.inl (by rw [hq]), fun hne => absurd hq hne, by rw [hq],
      fun c hc => Option.noConfusion hc⟩
  · by_cases hv : 0 < c.value
    · have hq : (decrementCounterProject p cid now).incrementHistory
          = removeMostRecentEntry p.incrementHistory cid := by
        simp only [decrementCounterProject, decrementMutation, hf, if_pos hv,
          stampLastModified]
        rw [applyToCounter_incrementHistory]
      have hc0 : ∀ c' : Counter, some c = some c' → c'.value = 0 →
          (decrementCounterProject p cid now).incrementHistory
            = p.incrementHistory := by
        intro c' hc' h0
        have hcc : c = c' := Option.some.injEq _ _ ▸ hc'
        rw [← hcc] at h0
        exact absurd hv (by rw [h0]; decide)
      rcases removeMostRecentEntry_cases p.incrementHistory cid with ⟨hall, heq⟩ |
        ⟨l1, e, l2, hsplit, he, hl2, heq⟩
      · rw [heq] at hq
        exact ⟨Or.inl (by rw [hq]), fun hne => absurd hq hne, by rw [hq], hc0⟩
      · rw [heq] at hq
        refine ⟨Or.inr ?_, fun _ => ⟨l1, e, l2, hsplit, he, hl2, hq⟩, ?_, hc0⟩
        · rw [hq, hsplit]
          simp
          omega
        · rw [hq, hsplit, List.filter_append, List.filter_append, List.filter_cons]
          simp [he]
    · have hq : (decrementCounterProject p cid now).incrementHistory
          = p.incrementHistory := by
        simp [decrementCounterProject, decrementMutation, hf, if_neg hv,
          stampLastModified]
      exact ⟨Or.inl (by rw [hq]), fun hne => absurd hq hne, by rw [hq],
        fun c hc h0 => hq⟩

/-- Concrete project used to witness the history claims: main counter at `2`,
one sub-counter `"a"`, history `[main@1, a@2, main@3]`. -/
def exampleHistoryProject : Project :=
  ⟨none, "P", 0, ⟨0, false, some 0⟩, ⟨"main", "Row", 2, some 10⟩,
    [⟨"a", "Stitch", 1, none⟩],
    [⟨"main", 1⟩, ⟨"a", 2⟩, ⟨"main", 3⟩], "", ""⟩

/-- C5 witness: the theorem evaluated on `exampleHistoryProject` with a
decrement of `"main"`: one entry is removed, it is the last `"main"` entry,
and the `"a"` entry survives. -/
theorem claim_C5_witness :
    ((decrementCounterProject exampleHistoryProject "main" 9).incrementHistory.length
        = exampleHistoryProject.incrementHistory.length ∨
      (decrementCounterProject exampleHistoryProject "main" 9).incrementHistory.length + 1
        = exampleHistoryProject.incrementHistory.length) ∧
    (∃ l1 e l2, exampleHistoryProject.incrementHistory = l1 ++ e :: l2 ∧
      e.counterId = "main" ∧ (∀ x ∈ l2, ¬ x.counterId = "main") ∧
      (decrementCounterProject exampleHistoryProject "main" 9).incrementHistory
        = l1 ++ l2) ∧
    (decrementCounterProject exampleHistoryProject "main" 9).incrementHistory.filter
        (fun h => ¬ h.counterId = "main")
      = exampleHistoryProject.incrementHistory.filter (fun h => ¬ h.counterId = "main") := by
  have h := claim_C5_theorem exampleHistoryProject "main" 9
  exact ⟨h.1, h.2.1 (by decide), h.2.2.1⟩

/- ## C6: reset zeroes the counter and purges its whole history -/

theorem find?_updateFirstCounter (cid : String) (f : Counter → Counter)
    (hid : ∀ c, (f c).id = c.id) :
    ∀ l : List Counter,
      (updateFirstCounter cid f l).find? (fun c => c.id == cid)
        = (l.find? (fun c => c.id == cid)).map f := by
  intro l
  induction l with
  | nil => rfl
  | cons x xs ih =>
    rw [updateFirstCounter]
    by_cases hx : x.id = cid
    · rw [if_pos hx, List.find?_cons_of_pos _ (by simp [hid, hx]),
        List.find?_cons_of_pos _ (by simp [hx])]
      rfl
    · rw [if_neg hx, List.find?_cons_of_neg _ (by simp [hx]),
        List.find?_cons_of_neg _ (by simp [hx])]
      exact ih

theorem filter_eq_of_filter_ne (cid : String) :
    ∀ l : List HistoryEntry,
      ((l.filter (fun h => ¬ h.counterId = cid)).filter
        (fun h => h.counterId = cid) = []) ∧
      ((l.filter (fun h => ¬ h.counterId = cid)).filter
        (fun h => ¬ h.counterId = cid)
        = l.filter (fun h => ¬ h.counterId = cid)) := by
  intro l
  induction l with
  | nil => exact ⟨rfl, rfl⟩
  | cons x xs ih =>
    by_cases hx : x.counterId = cid <;>
      simp [List.filter_cons, hx, ih.1, ih.2]

/-- C6: for every prior project state in which the counter id resolves,
`resetCounter` leaves that counter with value `0`, leaves zero history
entries for that id, and preserves the history entries of every other id. -/
theorem claim_C6_theorem (p : Project) (cid : String) (now : ℤ) (c : Counter)
    (hf : findCounter p cid = some c) :
    findCounter (resetCounterProject p cid now) cid = some { c with value := 0 } ∧
    (resetCounterProject p cid now).incrementHistory.filter
      (fun h => h.counterId = cid) = [] ∧
    (resetCounterProject p cid now).incrementHistory.filter
        (fun h => ¬ h.counterId = cid)
      = p.incrementHistory.filter (fun h => ¬ h.counterId = cid) := by
  have hh : (resetCounterProject p cid now).incrementHistory
      = p.incrementHistory.filter (fun h => ¬ h.counterId = cid) := by
    simp only [resetCounterProject, resetMutation, hf, stampLastModified,
      applyToCounter_incrementHistory]
  refine ⟨?_, ?_, ?_⟩
  · simp only [resetCounterProject, resetMutation, hf, stampLastModified]
    by_cases hm : cid = "main"
    · have hc : p.mainCounter = c := by simpa [findCounter, hm] using hf
      simp [findCounter, applyToCounter, hm, hc]
    · have hfs : p.subCounters.find? (fun c => c.id == cid) = some c := by
        simpa [findCounter, hm] using hf
      simp only [findCounter, applyToCounter, if_neg hm]
      rw [find?_updateFirstCounter cid
        (fun c => { c with value := 0 }) (fun c => rfl), hfs]
      rfl
  · rw [hh]
    exact (filter_eq_of_filter_ne cid p.incrementHistory).1
  · rw [hh]
    exact (filter_eq_of_filter_ne cid p.incrementHistory).2

/-- C6 witness: the theorem evaluated on `exampleHistoryProject`, resetting
`"main"`: the main counter ends at value `0`, no `"main"` history entry
survives, and the `"a"` entry is preserved. -/
theorem claim_C6_witness :
    findCounter (resetCounterProject exampleHistoryProject "main" 7) "main"
      = some ⟨"main", "Row", 0, some 10⟩ ∧
    (resetCounterProject exampleHistoryProject "main" 7).incrementHistory.filter
      (fun h => h.counterId = "main") = [] ∧
    (resetCounterProject exampleHistoryProject "main" 7).incrementHistory.filter
        (fun h => ¬ h.counterId = "main")
      = exampleHistoryProject.incrementHistory.filter
          (fun h => ¬ h.counterId = "main") :=
  claim_C6_theorem exampleHistoryProject "main" 7 ⟨"main", "Row", 2, some 10⟩ rfl

/- ## Persistence (app.js `saveActiveProject`, db.js `saveProject`) -/

/-- JS `String.prototype.trim()`: strips leading and trailing whitespace. -/
def jsTrim (s : String) : String :=
  ⟨((s.data.dropWhile Char.isWhitespace).reverse.dropWhile Char.isWhitespace).reverse⟩

/-- The fresh id `saveActiveProject` assigns: `` `project-${Date.now()}` ``. -/
def freshProjectId (now : ℤ) : String :=
  "project-" ++ toString now

/-- One `showToast(message, type)` call; `severity` holds the JS type string
(`"info"`, `"success"` or `"error"`). -/
structure Toast where
  message : String
  severity : String
deriving DecidableEq

/-- Externally visible effects of one `saveActiveProject` run: the project
value passed to the adapter `saveProject` call (if any call was made) and the
toast surfaced to the user (if any). -/
structure SaveEffects where
  adapterArg : Option Project
  toast : Option Toast
deriving DecidableEq

/-- The slice of `appState` that `saveActiveProject` reads and writes,
together with the adapter's durable store. -/
structure EngineSnapshot where
  project : Project
  isDirty : Bool
  store : List Project
deriving DecidableEq

/-- db.js `saveProject` via IndexedDB `put`: insert-or-replace keyed by id. -/
def putProject (store : List Project) (p : Project) : List Project :=
  if store.any (fun q => q.id == p.id) then
    store.map (fun q => if q.id == p.id then p else q)
  else store ++ [p]

/-- app.js `saveActiveProject(isSilent)`: an empty trimmed name surfaces an
error toast and returns before touching anything; otherwise a missing id is
assigned `` `project-${Date.now()}` ``, `lastModified` is stamped, and the
adapter write is attempted. On success the dirty flag clears and a success
toast appears only on an explicit (non-silent) save; on adapter failure an
error toast appears, the dirty flag is left as it was, and the store is
unchanged (the transaction did not commit). `adapterOk` is the outcome of
the awaited `saveProject` promise. -/
def saveActiveProject (s : EngineSnapshot) (isSilent : Bool) (now : ℤ)
    (adapterOk : Bool) : EngineSnapshot × SaveEffects :=
  if jsTrim s.project.name = "" then
    (s, ⟨none, some ⟨"Project name cannot be empty.", "error"⟩⟩)
  else
    let p1 := if s.project.id = none then
        { s.project with id := some (freshProjectId now) }
      else s.project
    let p2 := { p1 with lastModified := now }
    if adapterOk then
      (⟨p2, false, putProject s.store p2⟩,
       ⟨some p2, if isSilent then none else some ⟨"Project saved!", "success"⟩⟩)
    else
      (⟨p2, s.isDirty, s.store⟩, ⟨some p2, some ⟨"Error saving project.", "error"⟩⟩)

/- ## C7: save validation, notifications and dirty flag -/

/-- C7: a save on a project whose name trims to empty surfaces the
validation error toast, makes no adapter call and changes nothing (so no id
is assigned); a successful save clears the dirty flag and surfaces the
success toast exactly when the save is explicit (not silent); a failed
adapter write surfaces the error toast and leaves the dirty flag (and the
store) untouched. -/
theorem claim_C7_theorem (s : EngineSnapshot) (isSilent : Bool) (now : ℤ)
    (adapterOk : Bool) :
    (jsTrim s.project.name = "" →
      (saveActiveProject s isSilent now adapterOk).1 = s ∧
      (saveActiveProject s isSilent now adapterOk).2.adapterArg = none ∧
      (saveActiveProject s isSilent now adapterOk).2.toast
        = some ⟨"Project name cannot be empty.", "error"⟩) ∧
    (jsTrim s.project.name ≠ "" → adapterOk = true →
      (saveActiveProject s isSilent now adapterOk).1.isDirty = false ∧
      ((saveActiveProject s isSilent now adapterOk).2.toast
          = some ⟨"Project saved!", "success"⟩ ↔ isSilent = false)) ∧
    (jsTrim s.project.name ≠ "" → adapterOk = false →
      (saveActiveProject s isSilent now adapterOk).2.toast
        = some ⟨"Error saving project.", "error"⟩ ∧
      (saveActiveProject s isSilent now adapterOk).1.isDirty = s.isDirty ∧
      (saveActiveProject s isSilent now adapterOk).1.store = s.store) := by
  refine ⟨?_, ?_, ?_⟩
  · intro hb
    simp [saveActiveProject, hb]
  · intro hb hok
    subst hok
    cases isSilent <;> simp [saveActiveProject, hb]
  · intro hb hok
    subst hok
    simp [saveActiveProject, hb]

/-- C7 witness: the theorem evaluated on a whitespace-only name (validation
failure), on a good name with a succeeding adapter (explicit save), and on a
good name with a failing adapter. -/
theorem claim_C7_witness :
    (saveActiveProject ⟨{ createDefaultProject 0 with name := "   " }, true, []⟩
        false 5 true).1
      = ⟨{ createDefaultProject 0 with name := "   " }, true, []⟩ ∧
    (saveActiveProject ⟨{ createDefaultProject 0 with name := "   " }, true, []⟩
        false 5 true).2.adapterArg = none ∧
    (saveActiveProject ⟨createDefaultProject 0, true, []⟩ false 5 true).1.isDirty
      = false ∧
    ((saveActiveProject ⟨createDefaultProject 0, true, []⟩ false 5 true).2.toast
      = some ⟨"Project saved!", "success"⟩) ∧
    (saveActiveProject ⟨createDefaultProject 0, true, []⟩ false 5 false).1.isDirty
      = true := by
  have h1 := (claim_C7_theorem ⟨{ createDefaultProject 0 with name := "   " }, true, []⟩
    false 5 true).1 (by decide)
  have h2 := (claim_C7_theorem ⟨createDefaultProject 0, true, []⟩ false 5 true).2.1
    (by decide) rfl
  have h3 := (claim_C7_theorem ⟨createDefaultProject 0, true, []⟩ false 5 false).2.2
    (by decide) rfl
  exact ⟨h1.1, h1.2.1, h2.1, h2.2.mpr rfl, h3.2.1⟩

/- ## C10: id assignment is not atomic with the write -/

/-- C10: for an ephemeral project (id absent) with a non-blank name,
`saveActiveProject` assigns the fresh time-derived id before attempting the
adapter write — the project value handed to the adapter already carries it —
so when the write fails the in-memory project keeps the non-null id while the
dirty flag stays `true` and the durable store is unchanged. -/
theorem claim_C10_theorem (s : EngineSnapshot) (isSilent : Bool) (now : ℤ)
    (h1 : s.project.id = none) (h2 : jsTrim s.project.name ≠ "")
    (h3 : s.isDirty = true) :
    (saveActiveProject s isSilent now false).1.project.id
      = some (freshProjectId now) ∧
    (saveActiveProject s isSilent now false).2.adapterArg
      = some (saveActiveProject s isSilent now false).1.project ∧
    (saveActiveProject s isSilent now false).1.isDirty = true ∧
    (saveActiveProject s isSilent now false).1.store = s.store := by
  simp [saveActiveProject, h1, h2, h3]

/-- C10 witness: the theorem evaluated on the fresh default project (dirty,
id absent) with a failing adapter at `now = 5`. -/
theorem claim_C10_witness :
    (saveActiveProject ⟨createDefaultProject 0, true, []⟩ true 5 false).1.project.id
      = some (freshProjectId 5) ∧
    (saveActiveProject ⟨createDefaultProject 0, true, []⟩ true 5 false).2.adapterArg
      = some (saveActiveProject ⟨createDefaultProject 0, true, []⟩ true 5 false).1.project ∧
    (saveActiveProject ⟨createDefaultProject 0, true, []⟩ true 5 false).1.isDirty
      = true ∧
    (saveActiveProject ⟨createDefaultProject 0, true, []⟩ true 5 false).1.store = [] :=
  claim_C10_theorem ⟨createDefaultProject 0, true, []⟩ true 5 rfl (by decide) rfl

/- ## Project deletion (app.js `handleProjectDeletion`, db.js `getAllProjects`) -/

/-- The project-value part of app.js `setActiveProject`: when the incoming
timer is running, `lastTick` is resampled to `now` so no elapsed time is
attributed to the swap (the dirty-flag reset lives on the engine state). -/
def setActiveProject (p : Project) (now : ℤ) : Project :=
  if p.timer.isPaused then p
  else { p with timer := { p.timer with lastTick := some now } }

/-- db.js `deleteProject`: the record keyed by this id is removed. -/
def deleteFromStore (store : List Project) (pid : String) : List Project :=
  store.filter (fun p => ¬ p.id = some pid)

/-- The descending `lastModified` sort in db.js `getAllProjects`
(`(a, b) => b.lastModified - a.lastModified`). -/
def sortByLastModifiedDesc (l : List Project) : List Project :=
  l.insertionSort (fun a b => b.lastModified ≤ a.lastModified)

/-- db.js `getAllProjects`: all stored projects, newest first. -/
def getAllProjects (store : List Project) : List Project :=
  sortByLastModifiedDesc store

/-- app.js `handleProjectDeletion(projectId)`: delete from the adapter,
refresh the cached saved-projects list (sorted newest first), and if the
deleted project was the active one, activate `savedProjects[0]` or a fresh
default. Returns the new active project and the refreshed cached list. -/
def handleProjectDeletion (active : Project) (store : List Project)
    (pid : String) (now : ℤ) : Project × List Project :=
  let saved := getAllProjects (deleteFromStore store pid)
  if active.id = some pid then
    match saved with
    | [] => (setActiveProject (createDefaultProject now) now, saved)
    | p :: _ => (setActiveProject p now, saved)
  else (active, saved)

instance : IsTotal Project (fun a b => b.lastModified ≤ a.lastModified) :=
  ⟨fun a b => le_total b.lastModified a.lastModified⟩

instance : IsTrans Project (fun a b => b.lastModified ≤ a.lastModified) :=
  ⟨fun _ _ _ hab hbc => le_trans hbc hab⟩

theorem head_max_sortDesc (l : List Project) (p : Project) (rest : List Project)
    (h : sortByLastModifiedDesc l = p :: rest) :
    p ∈ l ∧ ∀ q ∈ l, q.lastModified ≤ p.lastModified := by
  have hs := List.sorted_insertionSort
    (fun a b : Project => b.lastModified ≤ a.lastModified) l
  have hperm := List.perm_insertionSort
    (fun a b : Project => b.lastModified ≤ a.lastModified) l
  rw [sortByLastModifiedDesc] at h
  rw [h] at hs hperm
  constructor
  · exact hperm.mem_iff.mp (List.mem_cons_self p rest)
  · intro q hq
    have hq' : q ∈ p :: rest := hperm.symm.subset hq
    rcases List.mem_cons.mp hq' with h' | h'
    · exact le_of_eq (by rw [h'])
    · exact (List.sorted_cons.mp hs).1 q h'

theorem sortDesc_nil_iff (l : List Project) :
    sortByLastModifiedDesc l = [] ↔ l = [] := by
  constructor
  · intro h
    have hperm := List.perm_insertionSort
      (fun a b : Project => b.lastModified ≤ a.lastModified) l
    rw [sortByLastModifiedDesc] at h
    rw [h] at hperm
    exact hperm.symm.eq_nil
  · intro h
    simp [sortByLastModifiedDesc, h]

/- ## C8: deletion activates the most recently modified survivor -/

/-- C8: for every saved-project store, deleting the active persisted
project activates (through `setActiveProject`) a remaining stored project of
maximal `lastModified` — the head of the adapter list, which is ordered by
`lastModified` descending — or a fresh default when none remain; deleting a
non-active project leaves the active project unchanged; the refreshed cached
list is the sorted survivors, which no longer contain the deleted id. -/
theorem claim_C8_theorem (active : Project) (store : List Project)
    (pid : String) (now : ℤ) :
    (active.id = some pid →
      (deleteFromStore store pid = [] →
        (handleProjectDeletion active store pid now).1
          = setActiveProject (createDefaultProject now) now) ∧
      (deleteFromStore store pid ≠ [] →
        ∃ p, p ∈ deleteFromStore store pid ∧
          (handleProjectDeletion active store pid now).1 = setActiveProject p now ∧
          ∀ q ∈ deleteFromStore store pid, q.lastModified ≤ p.lastModified)) ∧
    (active.id ≠ some pid → (handleProjectDeletion active store pid now).1 = active) ∧
    (handleProjectDeletion active store pid now).2
      = getAllProjects (deleteFromStore store pid) ∧
    List.Sorted (fun a b => b.lastModified ≤ a.lastModified)
      (handleProjectDeletion active store pid now).2 ∧
    (∀ q ∈ (handleProjectDeletion active store pid now).2, ¬ q.id = some pid) := by
  have hsorted := List.sorted_insertionSort
    (fun a b : Project => b.lastModified ≤ a.lastModified) (deleteFromStore store pid)
  have hperm := List.perm_insertionSort
    (fun a b : Project => b.lastModified ≤ a.lastModified) (deleteFromStore store pid)
  refine ⟨?_, ?_, ?_, ?_, ?_⟩
  · intro ha
    constructor
    · intro hnil
      rw [handleProjectDeletion, if_pos ha]
      have : getAllProjects (deleteFromStore store pid) = [] := by
        rw [getAllProjects, sortDesc_nil_iff]
        exact hnil
      rw [this]
    · intro hne
      cases hsort : sortByLastModifiedDesc (deleteFromStore store pid) with
      | nil => exact absurd ((sortDesc_nil_iff _).mp hsort) hne
      | cons p rest =>
        obtain ⟨hmem, hmax⟩ := head_max_sortDesc (deleteFromStore store pid) p rest hsort
        refine ⟨p, hmem, ?_, hmax⟩
        rw [handleProjectDeletion, if_pos ha]
        have : getAllProjects (deleteFromStore store pid) = p :: rest := hsort
        rw [this]
  · intro ha
    rw [handleProjectDeletion, if_neg ha]
  · rw [handleProjectDeletion]
    split_ifs with ha
    · cases hsort : getAllProjects (deleteFromStore store pid) with
      | nil => rfl
      | cons p rest => rfl
    · rfl
  · rw [handleProjectDeletion]
    split_ifs with ha
    · cases hsort : getAllProjects (deleteFromStore store pid) with
      | nil => exact List.sorted_nil
      | cons p rest =>
        have hres : List.Sorted (fun a b : Project => b.lastModified ≤ a.lastModified)
            (p :: rest) := by
          rw [← hsort]
          exact hsorted
        exact hres
    · exact hsorted
  · have hq : ∀ q ∈ getAllProjects (deleteFromStore store pid), ¬ q.id = some pid := by
      intro q hqmem
      have hmem : q ∈ deleteFromStore store pid := hperm.subset hqmem
      have := List.of_mem_filter hmem
      simpa using this
    rw [handleProjectDeletion]
    split_ifs with ha
    · cases hsort : getAllProjects (deleteFromStore store pid) with
      | nil =>
        intro q hqmem
        exact absurd hqmem (List.not_mem_nil q)
      | cons p rest =>
        intro q hqmem
        refine hq q ?_
        rw [hsort]
        exact hqmem
    · exact hq

/-- C8 witness: the theorem evaluated on a concrete store of three persisted
projects where the active one (`"p1"`) is deleted: of the two survivors,
`"p3"` (`lastModified = 30`) is activated over `"p2"` (`lastModified = 20`). -/
theorem claim_C8_witness :
    (∃ p, p ∈ deleteFromStore
        [{ createDefaultProject 10 with id := some "p1", name := "A" },
         { createDefaultProject 20 with id := some "p2", name := "B", lastModified := 20 },
         { createDefaultProject 30 with id := some "p3", name := "C", lastModified := 30 }]
        "p1" ∧
      (handleProjectDeletion { createDefaultProject 10 with id := some "p1", name := "A" }
        [{ createDefaultProject 10 with id := some "p1", name := "A" },
         { createDefaultProject 20 with id := some "p2", name := "B", lastModified := 20 },
         { createDefaultProject 30 with id := some "p3", name := "C", lastModified := 30 }]
        "p1" 99).1 = setActiveProject p 99 ∧
      ∀ q ∈ deleteFromStore
          [{ createDefaultProject 10 with id := some "p1", name := "A" },
           { createDefaultProject 20 with id := some "p2", name := "B", lastModified := 20 },
           { createDefaultProject 30 with id := some "p3", name := "C", lastModified := 30 }]
          "p1", q.lastModified ≤ p.lastModified) :=
  ((claim_C8_theorem
    { createDefaultProject 10 with id := some "p1", name := "A" }
    [{ createDefaultProject 10 with id := some "p1", name := "A" },
     { createDefaultProject 20 with id := some "p2", name := "B", lastModified := 20 },
     { createDefaultProject 30 with id := some "p3", name := "C", lastModified := 30 }]
    "p1" 99).1 rfl).2 (by decide)

/- ## Confirmation protocol (app.js `showConfirmation`,
`handleConfirmationProceed`, `handleAppClick`, `handleModalClick`) -/

/-- The continuation captured by a confirmation context, as a tagged pending
action rather than a JS closure. -/
inductive PendingAction where
  | removeSubCounter (cid : String)
  | removeProject (pid : String)
  | loadSaved (pid : String)
  | startNew
deriving DecidableEq

/-- The `appState.confirmationContext` record: title, message and the continuation. -/
structure ConfirmationContext where
  title : String
  message : String
  action : PendingAction
deriving DecidableEq

/-- The slice of `appState` the confirmation protocol touches: the active
project, the adapter store, the dirty flag, the confirmation context slot and
the active modal name. -/
structure AppModel where
  active : Project
  savedStore : List Project
  isDirty : Bool
  confirmation : Option ConfirmationContext
  activeModal : Option String
deriving DecidableEq

/-- The context built by the `delete-sub-counter` branch of `handleAppClick`. -/
def subCounterConfirmation (cid : String) : ConfirmationContext :=
  ⟨"Delete Counter?",
   "Are you sure you want to delete this sub-counter? This cannot be undone.",
   .removeSubCounter cid⟩

/-- The context built by the `delete-project` branches. -/
def deleteProjectConfirmation (pid nm : String) : ConfirmationContext :=
  ⟨"Delete \"" ++ nm ++ "\"?",
   "This project will be permanently removed from your device.",
   .removeProject pid⟩

/-- The context built by `loadProject` when the active project is dirty. -/
def loadConfirmation (pid : String) : ConfirmationContext :=
  ⟨"Unsaved Changes",
   "You have unsaved changes. Are you sure you want to load another project and discard them?",
   .loadSaved pid⟩

/-- The context built by `start-new-project` when the active project is dirty. -/
def startNewConfirmation : ConfirmationContext :=
  ⟨"Unsaved Changes",
   "You have unsaved changes. Are you sure you want to start a new project and discard them?",
   .startNew⟩

/-- app.js `showConfirmation(context)`: overwrite the single context slot and
open the confirm modal. Nothing else is touched. -/
def showConfirmation (m : AppModel) (ctx : ConfirmationContext) : AppModel :=
  { m with confirmation := some ctx, activeModal := some "confirm" }

/-- app.js `updateAndSave(fn)` at the engine level: run the mutation, stamp
`lastModified`, then mark dirty (ephemeral project) or autosave silently
(persisted project). -/
def updateAndSaveModel (m : AppModel) (f : Project → Project) (now : ℤ)
    (adapterOk : Bool) : AppModel :=
  let p := stampLastModified (f m.active) now
  if p.id = none then { m with active := p, isDirty := true }
  else
    let r := saveActiveProject ⟨p, m.isDirty, m.savedStore⟩ true now adapterOk
    { m with active := r.1.project, isDirty := r.1.isDirty, savedStore := r.1.store }

/-- app.js `performLoadProject(projectId)`: look the id up in the cached
saved list; when found, activate it (clearing the dirty flag) and close the
modal; otherwise do nothing. -/
def performLoadProjectModel (m : AppModel) (pid : String) (now : ℤ) : AppModel :=
  match (getAllProjects m.savedStore).find? (fun p => p.id == some pid) with
  | none => m
  | some proj =>
    { m with active := setActiveProject proj now, isDirty := false,
             activeModal := none }

/-- Dispatch of a confirmed continuation (the bodies of the `onConfirm`
closures in app.js). -/
def runPendingAction (m : AppModel) (now : ℤ) (adapterOk : Bool) :
    PendingAction → AppModel
  | .removeSubCounter cid =>
    updateAndSaveModel m (deleteSubCounterMutation cid) now adapterOk
  | .removeProject pid =>
    { m with
      savedStore := deleteFromStore m.savedStore pid
      active := (handleProjectDeletion m.active m.savedStore pid now).1
      isDirty := if m.active.id = some pid then false else m.isDirty }
  | .loadSaved pid => performLoadProjectModel m pid now
  | .startNew =>
    { m with active := setActiveProject (createDefaultProject now) now,
             isDirty := false, activeModal := none }

/-- One user interaction relevant to the confirmation protocol. -/
inductive UIEvent where
  | clickDeleteSubCounter (cid : String)
  | clickDeleteProject (pid : String) (nm : String)
  | clickLoadProject (pid : String)
  | clickStartNewProject
  | clickConfirmCancel
  | clickConfirmProceed
deriving DecidableEq

/-- The event dispatch of `handleAppClick` / `handleModalClick` /
`handleConfirmationProceed` restricted to the confirmation-relevant
branches: destructive intents only install a context; `confirm-cancel` only
closes the modal; `confirm-proceed` runs the stored continuation. -/
def step (m : AppModel) (e : UIEvent) (now : ℤ) (adapterOk : Bool) : AppModel :=
  match e with
  | .clickDeleteSubCounter cid => showConfirmation m (subCounterConfirmation cid)
  | .clickDeleteProject pid nm => showConfirmation m (deleteProjectConfirmation pid nm)
  | .clickLoadProject pid =>
    if m.isDirty then showConfirmation m (loadConfirmation pid)
    else performLoadProjectModel m pid now
  | .clickStartNewProject =>
    if m.isDirty then showConfirmation m startNewConfirmation
    else
      { m with active := setActiveProject (createDefaultProject now) now,
               isDirty := false, activeModal := none }
  | .clickConfirmCancel => { m with activeModal := none }
  | .clickConfirmProceed =>
    match m.confirmation with
    | none => { m with activeModal := none }
    | some ctx => { runPendingAction m now adapterOk ctx.action with activeModal := none }

/- ## C9: no mutation before confirmation; cancel safe; no stacking -/

/-- C9: every destructive or discard-risking intent (delete sub-counter,
delete project, load while dirty, start-new while dirty) leaves the active
project, the store and the dirty flag untouched and only installs its
confirmation context; cancelling performs no mutation; and the context slot
is single — a second intent replaces the prior unconfirmed context. -/
theorem claim_C9_theorem (m : AppModel) (now : ℤ) (adapterOk : Bool) :
    (∀ cid,
      (step m (.clickDeleteSubCounter cid) now adapterOk).active = m.active ∧
      (step m (.clickDeleteSubCounter cid) now adapterOk).savedStore = m.savedStore ∧
      (step m (.clickDeleteSubCounter cid) now adapterOk).isDirty = m.isDirty ∧
      (step m (.clickDeleteSubCounter cid) now adapterOk).confirmation
        = some (subCounterConfirmation cid)) ∧
    (∀ pid nm,
      (step m (.clickDeleteProject pid nm) now adapterOk).active = m.active ∧
      (step m (.clickDeleteProject pid nm) now adapterOk).savedStore = m.savedStore ∧
      (step m (.clickDeleteProject pid nm) now adapterOk).isDirty = m.isDirty ∧
      (step m (.clickDeleteProject pid nm) now adapterOk).confirmation
        = some (deleteProjectConfirmation pid nm)) ∧
    (m.isDirty = true → ∀ pid,
      (step m (.clickLoadProject pid) now adapterOk).active = m.active ∧
      (step m (.clickLoadProject pid) now adapterOk).savedStore = m.savedStore ∧
      (step m (.clickLoadProject pid) now adapterOk).confirmation
        = some (loadConfirmation pid)) ∧
    (m.isDirty = true →
      (step m .clickStartNewProject now adapterOk).active = m.active ∧
      (step m .clickStartNewProject now adapterOk).savedStore = m.savedStore ∧
      (step m .clickStartNewProject now adapterOk).confirmation
        = some startNewConfirmation) ∧
    ((step m .clickConfirmCancel now adapterOk).active = m.active ∧
      (step m .clickConfirmCancel now adapterOk).savedStore = m.savedStore ∧
      (step m .clickConfirmCancel now adapterOk).isDirty = m.isDirty) ∧
    (∀ pid nm cid,
      (step (step m (.clickDeleteProject pid nm) now adapterOk)
          (.clickDeleteSubCounter cid) now adapterOk).confirmation
        = some (subCounterConfirmation cid)) := by
  refine ⟨?_, ?_, ?_, ?_, ?_, ?_⟩
  · intro cid
    exact ⟨rfl, rfl, rfl, rfl⟩
  · intro pid nm
    exact ⟨rfl, rfl, rfl, rfl⟩
  · intro hd pid
    simp [step, hd, showConfirmation]
  · intro hd
    simp [step, hd, showConfirmation]
  · exact ⟨rfl, rfl, rfl⟩
  · intro pid nm cid
    exact rfl

/-- C9 witness: the theorem evaluated on a dirty model over the default
project: the delete-project intent installs its context without touching
the project, a following delete-sub-counter intent replaces that context,
and cancel changes no state. -/
theorem claim_C9_witness :
    (step ⟨createDefaultProject 0, [], true, none, none⟩
        (.clickDeleteProject "p1" "A") 5 true).active = createDefaultProject 0 ∧
    (step ⟨createDefaultProject 0, [], true, none, none⟩
        (.clickLoadProject "p1") 5 true).confirmation = some (loadConfirmation "p1") ∧
    (step ⟨createDefaultProject 0, [], true, none, none⟩
        .clickConfirmCancel 5 true).isDirty = true ∧
    (step (step ⟨createDefaultProject 0, [], true, none, none⟩
        (.clickDeleteProject "p1" "A") 5 true)
        (.clickDeleteSubCounter "c1") 5 true).confirmation
      = some (subCounterConfirmation "c1") := by
  have h := claim_C9_theorem ⟨createDefaultProject 0, [], true, none, none⟩ 5 true
  exact ⟨(h.2.1 "p1" "A").1, (h.2.2.1 rfl "p1").2.2, h.2.2.2.2.1.2.2,
    h.2.2.2.2.2 "p1" "A" "c1"⟩

end CrochetCounter
